import Mathlib

/-!
Verification development for the streaming chat client in `chatapp/state.py`:
a shallow embedding of the stream processor (SSE frame decoding, delta
parsing, resource handling in `StreamProcessor`) and of the conversation
orchestrator (`State.process_question`, `State.update_user_message`,
`State.stop_process`, `State.format_messages`), with theorems checking the
specification's claims about them.

Conventions: Python strings are `List Char`; network chunks are modelled
at the wire level as byte lists, decoded per chunk by a strict UTF-8
decoder as `chunk.decode("utf-8")` does (`goBytes`), with the post-decode
loop also exposed over text chunks (`goEvs`); `json.loads` is modelled by an
executable JSON parser over a `Json` value type covering the fragment this
wire protocol exchanges (objects, arrays, strings, integers, booleans,
null; floating point literals and `\u` escapes do not occur on this wire
and are treated as malformed input by the model).
-/

/-- The character `{`, written via its code point. -/
def lbrace : Char := Char.ofNat 123

/-- The character `}`, written via its code point. -/
def rbrace : Char := Char.ofNat 125

/-- Whitespace recognised by Python `str.strip` (ASCII part). -/
def pySpace (c : Char) : Bool :=
  c == ' ' || c == '\t' || c == '\n' || c == '\r' || c == Char.ofNat 11 || c == Char.ofNat 12

/-- Python `line.strip()`: drop leading and trailing whitespace. -/
def pyStrip (s : List Char) : List Char :=
  ((s.dropWhile pySpace).reverse.dropWhile pySpace).reverse

/-- JSON values as produced by `json.loads` (strings as character lists,
object fields in textual order). -/
inductive Json where
  | null : Json
  | bool (b : Bool) : Json
  | num (n : Int) : Json
  | str (s : List Char) : Json
  | arr (xs : List Json) : Json
  | obj (fields : List (List Char × Json)) : Json

/-- Whitespace accepted between JSON tokens. -/
def jsonWsChar (c : Char) : Bool :=
  c == ' ' || c == '\t' || c == '\n' || c == '\r'

/-- Skip JSON inter-token whitespace. -/
def skipWs (s : List Char) : List Char := s.dropWhile jsonWsChar

/-- Parse the body of a JSON string after the opening quote, handling the
escapes this wire format uses; an unterminated string or a `\u` escape is
malformed. -/
def parseStrBody : List Char → Option (List Char × List Char)
  | [] => none
  | c :: rest =>
    if c = '"' then some ([], rest)
    else if c = '\\' then
      match rest with
      | [] => none
      | e :: rest2 =>
        match (if e = '"' then some '"'
               else if e = '\\' then some '\\'
               else if e = '/' then some '/'
               else if e = 'n' then some '\n'
               else if e = 't' then some '\t'
               else if e = 'r' then some '\r'
               else if e = 'b' then some (Char.ofNat 8)
               else if e = 'f' then some (Char.ofNat 12)
               else none) with
        | none => none
        | some d =>
          match parseStrBody rest2 with
          | none => none
          | some p => some (d :: p.1, p.2)
    else
      match parseStrBody rest with
      | none => none
      | some p => some (c :: p.1, p.2)

/-- Accumulate a run of decimal digits. -/
def digitsToNat (acc : Nat) : List Char → Nat × List Char
  | [] => (acc, [])
  | c :: rest =>
    if c.isDigit then digitsToNat (acc * 10 + (c.toNat - 48)) rest
    else (acc, c :: rest)

/-- Parse a JSON integer literal (the numeric fragment this protocol uses). -/
def parseNum : List Char → Option (Json × List Char)
  | [] => none
  | c :: rest =>
    if c = '-' then
      match rest with
      | d :: _ =>
        if d.isDigit then
          let p := digitsToNat 0 rest
          some (Json.num (-(p.1 : Int)), p.2)
        else none
      | [] => none
    else if c.isDigit then
      let p := digitsToNat 0 (c :: rest)
      some (Json.num (p.1 : Int), p.2)
    else none

/-- Parse the members of a JSON object after the opening brace (nonempty
case), given a parser `pv` for element values; fuelled. -/
def parseObjLoop (pv : List Char → Option (Json × List Char)) :
    Nat → List Char → List (List Char × Json) → Option (Json × List Char)
  | 0, _, _ => none
  | fuel + 1, s, acc =>
    match skipWs s with
    | [] => none
    | c :: r =>
      if c = '"' then
        match parseStrBody r with
        | none => none
        | some kp =>
          match skipWs kp.2 with
          | c2 :: r3 =>
            if c2 = ':' then
              match pv r3 with
              | none => none
              | some vp =>
                match skipWs vp.2 with
                | c3 :: r5 =>
                  if c3 = ',' then parseObjLoop pv fuel r5 ((kp.1, vp.1) :: acc)
                  else if c3 = rbrace then some (Json.obj ((kp.1, vp.1) :: acc).reverse, r5)
                  else none
                | [] => none
            else none
          | [] => none
      else none

/-- Parse the elements of a JSON array after the opening bracket (nonempty
case), given a parser `pv` for element values; fuelled. -/
def parseArrLoop (pv : List Char → Option (Json × List Char)) :
    Nat → List Char → List Json → Option (Json × List Char)
  | 0, _, _ => none
  | fuel + 1, s, acc =>
    match pv s with
    | none => none
    | some vp =>
      match skipWs vp.2 with
      | c :: r =>
        if c = ',' then parseArrLoop pv fuel r (vp.1 :: acc)
        else if c = ']' then some (Json.arr (vp.1 :: acc).reverse, r)
        else none
      | [] => none

/-- Parse one JSON value; fuelled to make the recursion structural. -/
def parseVal : Nat → List Char → Option (Json × List Char)
  | 0, _ => none
  | fuel + 1, s =>
    match skipWs s with
    | [] => none
    | c :: r =>
      if c = '"' then
        match parseStrBody r with
        | some p => some (Json.str p.1, p.2)
        | none => none
      else if c = lbrace then
        match skipWs r with
        | c2 :: r2 =>
          if c2 = rbrace then some (Json.obj [], r2)
          else parseObjLoop (fun t => parseVal fuel t) fuel (c2 :: r2) []
        | [] => none
      else if c = '[' then
        match skipWs r with
        | c2 :: r2 =>
          if c2 = ']' then some (Json.arr [], r2)
          else parseArrLoop (fun t => parseVal fuel t) fuel (c2 :: r2) []
        | [] => none
      else if c = 't' then
        match r with
        | 'r' :: 'u' :: 'e' :: r2 => some (Json.bool true, r2)
        | _ => none
      else if c = 'f' then
        match r with
        | 'a' :: 'l' :: 's' :: 'e' :: r2 => some (Json.bool false, r2)
        | _ => none
      else if c = 'n' then
        match r with
        | 'u' :: 'l' :: 'l' :: r2 => some (Json.null, r2)
        | _ => none
      else parseNum (c :: r)

/-- Model of Python `json.loads data`: `none` is a `json.JSONDecodeError`. -/
def jsonLoads (s : List Char) : Option Json :=
  match parseVal (4 * s.length + 16) s with
  | some p => if (skipWs p.2).isEmpty then some p.1 else none
  | none => none

/-- Look up a key in a JSON object's field list; on duplicate keys the last
occurrence wins, as in Python's dict built by `json.loads`. -/
def jLookup (k : List Char) : List (List Char × Json) → Option Json
  | [] => none
  | kv :: rest =>
    match jLookup k rest with
    | some v => some v
    | none => if kv.1 = k then some kv.2 else none

/-- Model of `obj[key]` in the `try` block of `StreamProcessor.__aiter__`:
`none` stands for any exception (KeyError or TypeError), which line 78 of
`state.py` catches and turns into a skip. -/
def jGet (j : Json) (k : List Char) : Option Json :=
  match j with
  | Json.obj fs => jLookup k fs
  | _ => none

/-- Model of `seq[i]` on the parsed value: `none` stands for the exception
(IndexError, KeyError or TypeError on non-list values) which is caught and
turned into a skip. -/
def jIdx (j : Json) (i : Nat) : Option Json :=
  match j with
  | Json.arr xs => xs.get? i
  | _ => none

/-- Model of `d.get(key)` on the delta object: the outer `none` is the
AttributeError raised when `d` is not a dict (caught, skip); the inner
`Option` is the Python value, where an absent key and a JSON `null` both
give Python `None`. -/
def pyGet (j : Json) (k : List Char) : Option (Option Json) :=
  match j with
  | Json.obj fs =>
    match jLookup k fs with
    | none => some none
    | some Json.null => some none
    | some v => some (some v)
  | _ => none

/-- Python truthiness of a JSON value. -/
def pyTruthy : Json → Bool
  | Json.null => false
  | Json.bool b => b
  | Json.num n => !(n == 0)
  | Json.str s => !s.isEmpty
  | Json.arr xs => !xs.isEmpty
  | Json.obj fs => !fs.isEmpty

/-- Python truthiness of an optional value (`None` is falsy). -/
def pyTruthyO : Option Json → Bool
  | none => false
  | some j => pyTruthy j

/-- The `StreamChunk` dataclass of `state.py` (lines 21-26). Field values
keep the parsed JSON value, as the Python attributes do. -/
structure StreamChunk where
  content : Option Json := none
  reasoning : Option Json := none
  is_done : Bool := false
  error : Option (List Char) := none

/-- The body of the `try` block at lines 66-75 of `state.py`: parse the
choices/delta shape out of one decoded payload and yield a `StreamChunk`
only if `content or reasoning` is truthy; every exception is caught by the
`except` arms at lines 76-80 and yields nothing. -/
def extractDelta (j : Json) : List StreamChunk :=
  match jGet j ("choices".toList) with
  | none => []
  | some ch =>
    match jIdx ch 0 with
    | none => []
    | some c0 =>
      match jGet c0 ("delta".toList) with
      | none => []
      | some d =>
        match pyGet d ("content".toList), pyGet d ("reasoning".toList) with
        | some content, some reasoning =>
          if pyTruthyO content || pyTruthyO reasoning then
            [{ content := content, reasoning := reasoning, is_done := false, error := none }]
          else []
        | _, _ => []

/-- Processing of one `data: ` payload (lines 66-80 of `state.py`): JSON
decode then delta extraction; a malformed payload yields no chunk. -/
def parseFrame (data : List Char) : List StreamChunk :=
  match jsonLoads data with
  | none => []
  | some j => extractDelta j

/-- Split a text buffer into its complete `\n`-delimited lines and the
trailing partial line. This models the inner loop of
`StreamProcessor.__aiter__` (lines 52-58 of `state.py`): repeatedly
`find("\n")`, cut `buffer[:line_end]`, keep `buffer[line_end+1:]`; the
leftover without a newline stays in the buffer. -/
def linesOf : List Char → List (List Char) × List Char
  | [] => ([], [])
  | c :: rest =>
    let p := linesOf rest
    if c = '\n' then ([] :: p.1, p.2)
    else
      match p.1 with
      | [] => ([], c :: p.2)
      | l :: ls => ((c :: l) :: ls, p.2)

/-- The literal prefix `data: ` checked at line 60 of `state.py`. -/
def dataPre : List Char := "data: ".toList

/-- The terminal sentinel payload checked at line 62 of `state.py`. -/
def doneLit : List Char := "[DONE]".toList

/-- Output of processing a run of complete lines: the yielded chunks, the
extracted `data: ` payload strings (in order, including a terminating
`[DONE]` sentinel if one was reached), and whether the `[DONE]` branch set
`self._closed = True`. -/
structure ProcOut where
  out : List StreamChunk
  pay : List (List Char)
  closed : Bool

/-- Process complete lines as the inner loop of `StreamProcessor.__aiter__`
does (lines 57-80 of `state.py`): strip, check the `data: ` prefix, stop at
`[DONE]` (skipping every later line, as the `break` plus the
`while not self._closed` guard do), otherwise decode the payload. -/
def procLines : List (List Char) → ProcOut
  | [] => ⟨[], [], false⟩
  | l :: ls =>
    let line := pyStrip l
    if line.take 6 = dataPre then
      let d := line.drop 6
      if d = doneLit then ⟨[], [d], true⟩
      else
        let r := procLines ls
        ⟨parseFrame d ++ r.out, d :: r.pay, r.closed⟩
    else procLines ls

/-- Result of draining the buffer after appending one chunk: chunks
yielded, payloads seen, the new buffer (the trailing partial line), and
whether `[DONE]` closed the processor. When `closed` is true the buffer is
never read again by the source (the outer loop exits), so the model keeps
the uniform `linesOf` leftover there. -/
structure DrainResult where
  out : List StreamChunk
  pay : List (List Char)
  buf : List Char
  closed : Bool

/-- One pass of the inner loop over the whole buffer. -/
def drain (buf : List Char) : DrainResult :=
  let lt := linesOf buf
  let r := procLines lt.1
  ⟨r.out, r.pay, lt.2, r.closed⟩

/-- One read from `self.response.content`: a decoded text chunk, or a
transport-level exception raised by the read. An empty chunk is EOF. -/
inductive ReadEv where
  | chunk (data : List Char) : ReadEv
  | err (msg : List Char) : ReadEv

/-- The outer loop of `StreamProcessor.__aiter__` (lines 45-80 of
`state.py`) over already-decoded text chunks: while not closed, read a
chunk (stop on EOF), append to the buffer, drain complete lines. A read
error is caught by the `except` at line 82 (printed, not re-raised), so
it ends the iteration exactly like EOF as far as the consumer can
observe. Returns all yields, all payloads, and the final `_closed` flag.
The `chunk.decode("utf-8")` step of line 50 itself is modelled by
`goBytes` below, which feeds this same drain loop and ends the iteration
on a decode error. -/
def goEvs : List ReadEv → List Char → ProcOut
  | [], _ => ⟨[], [], false⟩
  | ReadEv.err _ :: _, _ => ⟨[], [], false⟩
  | ReadEv.chunk c :: rest, buf =>
    if c.isEmpty then ⟨[], [], false⟩
    else
      let d := drain (buf ++ c)
      if d.closed then ⟨d.out, d.pay, true⟩
      else
        let r := goEvs rest d.buf
        ⟨d.out ++ r.out, d.pay ++ r.pay, r.closed⟩

/-- Resource bookkeeping of one `StreamProcessor`: its `_closed` flag,
whether the aiohttp response is closed, whether `response.release()` was
ever called, and whether `session.close()` was ever called. -/
structure ResState where
  closed : Bool
  respClosed : Bool
  respReleased : Bool
  sessClosed : Bool
deriving DecidableEq

/-- Fresh resource state of a live stream (response open, nothing
released). -/
def startRes : ResState := ⟨false, false, false, false⟩

/-- Model of `StreamProcessor.close` (lines 87-93 of `state.py`): the whole
body is guarded by `if not self._closed`, so a call made after `_closed`
was already set does nothing at all. -/
def closeProc (r : ResState) : ResState :=
  if r.closed then r
  else
    let r1 : ResState := { r with closed := true }
    let r2 : ResState :=
      if r1.respClosed then r1
      else { r1 with respReleased := true, respClosed := true }
    { r2 with sessClosed := true }

/-- A full run of the async generator on its own: the yields, the payloads,
the `_closed` flag when the loops end, and the resource state after the
generator's `finally: await self.close()` (line 84-85). -/
structure SessionRun where
  out : List StreamChunk
  pay : List (List Char)
  endClosed : Bool
  res : ResState

/-- Run `StreamProcessor.__aiter__` over a read trace to exhaustion. -/
def runSession (evs : List ReadEv) : SessionRun :=
  let r := goEvs evs []
  ⟨r.out, r.pay, r.closed, closeProc { startRes with closed := r.closed }⟩

/-- The decoder pipeline over a plain chunk sequence (no read errors),
starting from the empty buffer: what the frame decoder part of the session
emits. -/
def runProcessor (cs : List (List Char)) : ProcOut :=
  goEvs (cs.map ReadEv.chunk) []

/-- The `Message` model of `state.py` (lines 178-183). -/
structure Message where
  role : List Char
  content : Option (List Char) := none
  reasoning : Option (List Char) := none
deriving DecidableEq

/-- The fields of the Reflex `State` class that the streaming turn reads
and writes. -/
structure AppState where
  chat_history : List Message
  question : List Char
  processing : Bool
  editing_user_message_index : Option Nat
deriving DecidableEq

/-- Model of `State.stop_process` (lines 286-290 of `state.py`): clear the
shared `processing` flag. -/
def stop_process (st : AppState) : AppState := { st with processing := false }

/-- In-place mutation of the last message, as `self.chat_history[-1].f = v`
does; the flows below only apply it to a nonempty history. -/
def updateLast (f : Message → Message) : List Message → List Message
  | [] => []
  | [m] => [f m]
  | m :: ms => m :: updateLast f ms

/-- In-place assignment `self.chat_history[index].content = v`; the claims
about it carry an in-range hypothesis, matching Python's IndexError on
anything else. -/
def setContentAt : List Message → Nat → List Char → List Message
  | [], _, _ => []
  | m :: rest, 0, c => { m with content := some c } :: rest
  | m :: rest, n + 1, c => m :: setContentAt rest n c

/-- Model of `State.format_messages` (lines 292-299 of `state.py`): prior
messages with truthy content, then the new user text. -/
def format_messages (hist : List Message) (question : List Char) :
    List (List Char × List Char) :=
  (hist.filterMap fun m =>
    match m.content with
    | some c => if c.isEmpty then none else some (m.role, c)
    | none => none) ++ [("user".toList, question)]

/-- Stands for the text of the Python TypeError raised by `answer += x`
when a delta field is a truthy non-string JSON value; the exact runtime
wording is immaterial to every claim. -/
def typeErrText : List Char := "unsupported operand type".toList

/-- Processing of one consumed chunk by the loop body at lines 343-351 of
`state.py`: if `chunk.reasoning` is truthy, append it to the reasoning
accumulator and store the accumulator into the last message; then the same
for `chunk.content` and the answer accumulator. Returns the new history,
answer, reasoning, and whether the body raised (a truthy non-string field
makes `+=` raise TypeError after the earlier mutations stand). -/
def stepChunk (ch : StreamChunk) (h : List Message) (a r : List Char) :
    List Message × List Char × List Char × Bool :=
  let s1 : List Message × List Char × Bool :=
    if pyTruthyO ch.reasoning then
      match ch.reasoning with
      | some (Json.str s) =>
        (updateLast (fun m => { m with reasoning := some (r ++ s) }) h, r ++ s, false)
      | _ => (h, r, true)
    else (h, r, false)
  if s1.2.2 then (s1.1, a, s1.2.1, true)
  else
    if pyTruthyO ch.content then
      match ch.content with
      | some (Json.str s) =>
        (updateLast (fun m => { m with content := some (a ++ s) }) s1.1, a ++ s, s1.2.1, false)
      | _ => (s1.1, a, s1.2.1, true)
    else (s1.1, a, s1.2.1, false)

/-- Result of the consumption loop: final history and accumulators, whether
the body raised, and whether the loop stopped before consuming every
available chunk (by the cancellation check or by raising) — in both of
those cases the generator is still suspended at a yield when the loop
stops. -/
structure LoopRes where
  hist : List Message
  answer : List Char
  reasoning : List Char
  errored : Bool
  brokeEarly : Bool
deriving DecidableEq

/-- The `async for chunk in processor` loop of `State.process_question`
(lines 339-351 of `state.py`). `flags i` is the value of the shared
`self.processing` flag observed by the `if not self.processing: break`
check when the i-th chunk has been received (cancellation is a concurrent
write to that flag, so the observed values are an input trace of the
model). -/
def consumeLoop (flags : Nat → Bool) : Nat → List StreamChunk →
    List Message → List Char → List Char → LoopRes
  | _, [], h, a, r => ⟨h, a, r, false, false⟩
  | i, ch :: rest, h, a, r =>
    if flags i then
      let s := stepChunk ch h a r
      if s.2.2.2 then ⟨s.1, s.2.1, s.2.2.1, true, true⟩
      else consumeLoop flags (i + 1) rest s.1 s.2.1 s.2.2.1
    else ⟨h, a, r, false, true⟩

/-- History after the loop and the surrounding `except Exception` handler
(lines 356-361 of `state.py`): if the loop body raised, an assistant
message carrying `Error: <message>` is appended to whatever the loop had
built. -/
def finalHist (flags : Nat → Bool) (chunks : List StreamChunk)
    (base : List Message) : List Message :=
  let lr := consumeLoop flags 0 chunks base [] []
  if lr.errored then
    lr.hist ++ [⟨"assistant".toList, some ("Error: ".toList ++ typeErrText), none⟩]
  else lr.hist

/-- Observable outcome of one orchestrator turn: the state fields it may
write, the message payload passed to `chat.completions.create` (none if
the turn returned before the call), and the stream session's final
resource state (none if no session was created). -/
structure Outcome where
  chat_history : List Message
  question : List Char
  processing : Bool
  editing_user_message_index : Option Nat
  sent : Option (List (List Char × List Char))
  res : Option ResState

/-- Model of `State.process_question` (lines 301-369 of `state.py`).
`conn` is the outcome of `client.chat.completions.create`: `some e` when
establishing the connection raises with message `e` (before any state
change), `none` when it returns a live `StreamProcessor` whose reads then
follow `evs`. On success: set `processing`, clear the input, append the
user message and an empty assistant placeholder, consume the stream under
`async with processor`, and finally clear `processing`. The final resource
state distinguishes the consumer-side `__aexit__` close: when the loop
stopped early the generator is still suspended mid-yield with `_closed`
still false, so that close releases everything; when the loop consumed all
yields the generator's own `finally` has already run and `__aexit__` is a
second, possibly guarded-out call. -/
def process_question (st : AppState) (conn : Option (List Char))
    (evs : List ReadEv) (flags : Nat → Bool) : Outcome :=
  if (pyStrip st.question).isEmpty then
    ⟨st.chat_history, st.question, st.processing, st.editing_user_message_index, none, none⟩
  else
    let q := st.question
    let sentM := format_messages st.chat_history q
    match conn with
    | some e =>
      ⟨st.chat_history ++ [⟨"assistant".toList, some ("Error: ".toList ++ e), none⟩],
        st.question, false, st.editing_user_message_index, some sentM, none⟩
    | none =>
      let sr := runSession evs
      let base := st.chat_history ++
        [⟨"user".toList, some q, none⟩, ⟨"assistant".toList, none, none⟩]
      let lr := consumeLoop flags 0 sr.out base [] []
      let resF := if lr.brokeEarly then closeProc startRes else closeProc sr.res
      ⟨finalHist flags sr.out base, [], false, st.editing_user_message_index,
        some sentM, some resF⟩

/-- Model of `State.update_user_message` (lines 540-615 of `state.py`):
guard on an active editing index and a nonblank input; replace the content
at that index, truncate the history to the first `index + 1` messages,
then regenerate seeded with the truncated history. Unlike
`process_question` it does not wrap the session in `async with`: on
cancellation it calls `session.close()` explicitly before breaking, and
when it consumes every yield the generator's own `finally` is the only
close. -/
def update_user_message (st : AppState) (conn : Option (List Char))
    (evs : List ReadEv) (flags : Nat → Bool) : Outcome :=
  match st.editing_user_message_index with
  | none =>
    ⟨st.chat_history, st.question, st.processing, st.editing_user_message_index, none, none⟩
  | some i =>
    if (pyStrip st.question).isEmpty then
      ⟨st.chat_history, st.question, st.processing, st.editing_user_message_index, none, none⟩
    else
      let q := st.question
      let hist0 := (setContentAt st.chat_history i q).take (i + 1)
      let sentM := format_messages hist0 q
      match conn with
      | some e =>
        ⟨hist0 ++ [⟨"assistant".toList, some ("Error: ".toList ++ e), none⟩],
          [], false, none, some sentM, none⟩
      | none =>
        let sr := runSession evs
        let base := hist0 ++ [⟨"assistant".toList, none, none⟩]
        let lr := consumeLoop flags 0 sr.out base [] []
        let resF := if lr.brokeEarly then closeProc startRes else sr.res
        ⟨finalHist flags sr.out base, [], false, none, some sentM, some resF⟩

/-- The first frame of end-to-end scenario A. -/
def frameHi : List Char :=
  "data: \x7b\"choices\":[\x7b\"delta\":\x7b\"content\":\"Hi\"\x7d\x7d]\x7d\n".toList

/-- The second frame of end-to-end scenario A. -/
def frameThere : List Char :=
  "data: \x7b\"choices\":[\x7b\"delta\":\x7b\"content\":\" there\"\x7d\x7d]\x7d\n".toList

/-- The terminating frame `data: [DONE]`. -/
def doneFrame : List Char := "data: [DONE]\n".toList

/-- Scenario A's wire trace, one frame per read. -/
def scenarioAEvs : List ReadEv :=
  [ReadEv.chunk frameHi, ReadEv.chunk frameThere, ReadEv.chunk doneFrame]

/-- One SSE frame on the wire: the `data: ` prefix, a payload, a newline. -/
def mkFrame (p : List Char) : List Char := dataPre ++ p ++ ['\n']

/-- A payload whose first choice carries `finish_reason: "stop"` together
with content. -/
def stopPayload : List Char :=
  "\x7b\"choices\":[\x7b\"delta\":\x7b\"content\":\"hi\"\x7d,\"finish_reason\":\"stop\"\x7d]\x7d".toList

/-- A payload whose delta carries only an empty content string, plus a
finish reason. -/
def emptyContentPayload : List Char :=
  "\x7b\"choices\":[\x7b\"delta\":\x7b\"content\":\"\"\x7d,\"finish_reason\":\"stop\"\x7d]\x7d".toList

/-- The payload of `frameHi`. -/
def hiPayload : List Char :=
  "\x7b\"choices\":[\x7b\"delta\":\x7b\"content\":\"Hi\"\x7d\x7d]\x7d".toList

/-- The payload of `frameThere`. -/
def therePayload : List Char :=
  "\x7b\"choices\":[\x7b\"delta\":\x7b\"content\":\" there\"\x7d\x7d]\x7d".toList

/-- Continuation byte test of strict UTF-8: `0x80..0xBF`. -/
def contByte (b : Nat) : Bool := decide (128 ≤ b) && decide (b ≤ 191)

/-- Valid second byte of a three-byte sequence led by `b` (strict UTF-8:
`E0` excludes overlong forms, `ED` excludes surrogates). -/
def cont3 (b b2 : Nat) : Bool :=
  if b = 224 then decide (160 ≤ b2) && decide (b2 ≤ 191)
  else if b = 237 then decide (128 ≤ b2) && decide (b2 ≤ 159)
  else contByte b2

/-- Valid second byte of a four-byte sequence led by `b` (strict UTF-8:
`F0` excludes overlong forms, `F4` caps at U+10FFFF). -/
def cont4 (b b2 : Nat) : Bool :=
  if b = 240 then decide (144 ≤ b2) && decide (b2 ≤ 191)
  else if b = 244 then decide (128 ≤ b2) && decide (b2 ≤ 143)
  else contByte b2

/-- Tail of a two-byte sequence with lead byte `b`. -/
def utf8Two (b : Nat) : List Nat → Option (Char × List Nat)
  | b2 :: r2 =>
    if contByte b2 then
      some (Char.ofNat ((b - 192) * 64 + (b2 - 128)), r2)
    else none
  | [] => none

/-- Tail of a three-byte sequence with lead byte `b`. -/
def utf8Three (b : Nat) : List Nat → Option (Char × List Nat)
  | b2 :: b3 :: r3 =>
    if cont3 b b2 && contByte b3 then
      some (Char.ofNat ((b - 224) * 4096 + (b2 - 128) * 64 + (b3 - 128)), r3)
    else none
  | _ => none

/-- Tail of a four-byte sequence with lead byte `b`. -/
def utf8Four (b : Nat) : List Nat → Option (Char × List Nat)
  | b2 :: b3 :: b4 :: r4 =>
    if cont4 b b2 && contByte b3 && contByte b4 then
      some (Char.ofNat ((b - 240) * 262144 + (b2 - 128) * 4096 +
        (b3 - 128) * 64 + (b4 - 128)), r4)
    else none
  | _ => none

/-- Decode one UTF-8 scalar from the front of a byte list; `none` on an
invalid or incomplete sequence (strict decoding, as Python's
`bytes.decode("utf-8")` performs). -/
def utf8DecodeOne : List Nat → Option (Char × List Nat)
  | [] => none
  | b :: rest =>
    if b ≤ 127 then some (Char.ofNat b, rest)
    else if 194 ≤ b ∧ b ≤ 223 then utf8Two b rest
    else if 224 ≤ b ∧ b ≤ 239 then utf8Three b rest
    else if 240 ≤ b ∧ b ≤ 244 then utf8Four b rest
    else none

/-- Fuelled full decode; each scalar consumes at least one byte, so the
byte count is always enough fuel. -/
def utf8DecodeGo : Nat → List Nat → Option (List Char)
  | f, bs =>
    match bs, f with
    | [], _ => some []
    | _ :: _, 0 => none
    | b :: rest, fuel + 1 =>
      match utf8DecodeOne (b :: rest) with
      | none => none
      | some p =>
        match utf8DecodeGo fuel p.2 with
        | none => none
        | some cs => some (p.1 :: cs)

/-- Model of Python `chunk.decode("utf-8")` at `state.py` line 50: `none`
is a `UnicodeDecodeError` — raised in particular when the chunk ends in
the middle of a multibyte character because a read boundary split it. -/
def utf8Decode (bs : List Nat) : Option (List Char) := utf8DecodeGo bs.length bs

/-- UTF-8 encoding of one character (to build concrete byte streams). -/
def utf8EncodeChar (c : Char) : List Nat :=
  let n := c.toNat
  if n ≤ 127 then [n]
  else if n ≤ 2047 then [192 + n / 64, 128 + n % 64]
  else if n ≤ 65535 then [224 + n / 4096, 128 + (n / 64) % 64, 128 + n % 64]
  else [240 + n / 262144, 128 + (n / 4096) % 64, 128 + (n / 64) % 64, 128 + n % 64]

/-- UTF-8 encoding of a text. -/
def utf8Encode (s : List Char) : List Nat := (s.map utf8EncodeChar).flatten

/-- The outer loop of `StreamProcessor.__aiter__` at the byte level
(lines 45-50 of `state.py`): read a byte chunk (stop on EOF), decode it as
UTF-8, append to the text buffer, drain complete lines. A
`UnicodeDecodeError` from a chunk whose bytes do not form complete UTF-8
sequences is caught by the `except` at line 82 exactly like a read error:
the iteration silently ends there. -/
def goBytes : List (List Nat) → List Char → ProcOut
  | [], _ => ⟨[], [], false⟩
  | c :: rest, buf =>
    if c.isEmpty then ⟨[], [], false⟩
    else
      match utf8Decode c with
      | none => ⟨[], [], false⟩
      | some s =>
        let d := drain (buf ++ s)
        if d.closed then ⟨d.out, d.pay, true⟩
        else
          let r := goBytes rest d.buf
          ⟨d.out ++ r.out, d.pay ++ r.pay, r.closed⟩

/-- The decoder pipeline over a byte chunk sequence, starting from the
empty buffer: what the frame decoder part of the session emits for one
wire-level chunking. -/
def runByteProcessor (cs : List (List Nat)) : ProcOut := goBytes cs []

/-- A frame whose content is the two-byte UTF-8 character U+00E9. -/
def eFrame : List Char :=
  "data: \x7b\"choices\":[\x7b\"delta\":\x7b\"content\":\"é\"\x7d\x7d]\x7d\n".toList

/-- The payload of `eFrame`. -/
def ePayload : List Char :=
  "\x7b\"choices\":[\x7b\"delta\":\x7b\"content\":\"é\"\x7d\x7d]\x7d".toList

/-- The wire bytes of `eFrame`; bytes 39 and 40 are the pair `0xC3 0xA9`
encoding its multibyte character. -/
def eFrameBytes : List Nat := utf8Encode eFrame

/-! ### Lemmas about the line splitter -/

/-- Unfolding equation of `linesOf` on a cons cell. -/
theorem linesOf_cons (c : Char) (s : List Char) :
    linesOf (c :: s) =
      if c = '\n' then ([] :: (linesOf s).1, (linesOf s).2)
      else
        match (linesOf s).1 with
        | [] => ([], c :: (linesOf s).2)
        | l :: ls => ((c :: l) :: ls, (linesOf s).2) := rfl

/-- Splitting a buffer with no complete line leaves it unchanged. -/
theorem linesOf_fst_nil {s : List Char} (h : (linesOf s).1 = []) :
    (linesOf s).2 = s := by
  induction s with
  | nil => rfl
  | cons c rest ih =>
    rw [linesOf_cons] at h ⊢
    by_cases hc : c = '\n'
    · simp [hc] at h
    · rw [if_neg hc] at h ⊢
      cases hp : (linesOf rest).1 with
      | nil => simp [hp, ih hp]
      | cons l ls => simp [hp] at h

/-- A buffer without a newline splits into no lines and itself. -/
theorem linesOf_no_nl {s : List Char} (h : '\n' ∉ s) : linesOf s = ([], s) := by
  induction s with
  | nil => rfl
  | cons c rest ih =>
    have hc : ¬ c = '\n' := fun he => h (he ▸ List.mem_cons_self c rest)
    have hr := ih (fun hm => h (List.mem_cons_of_mem c hm))
    rw [linesOf_cons, if_neg hc, hr]

/-- The trailing part returned by `linesOf` never contains a newline. -/
theorem nl_not_mem_linesOf_snd (s : List Char) : '\n' ∉ (linesOf s).2 := by
  induction s with
  | nil => simp [linesOf]
  | cons c rest ih =>
    rw [linesOf_cons]
    by_cases hc : c = '\n'
    · simpa [hc] using ih
    · rw [if_neg hc]
      cases hp : (linesOf rest).1 with
      | nil =>
        simp only []
        intro hm
        rcases List.mem_cons.mp hm with he | hm2
        · exact hc he.symm
        · exact ih hm2
      | cons l ls => simpa [hp] using ih

/-- Splitting a concatenation: the lines of `x` come first, and the
leftover of `x` merges with the front of `y`. -/
theorem linesOf_append (x y : List Char) :
    linesOf (x ++ y) =
      ((linesOf x).1 ++ (linesOf ((linesOf x).2 ++ y)).1,
        (linesOf ((linesOf x).2 ++ y)).2) := by
  induction x with
  | nil => simp [linesOf]
  | cons c rest ih =>
    rw [List.cons_append, linesOf_cons c (rest ++ y), ih, linesOf_cons c rest]
    by_cases hc : c = '\n'
    · simp [hc]
    · rw [if_neg hc, if_neg hc]
      cases hp : (linesOf rest).1 with
      | nil =>
        simp only [hp, List.nil_append, List.cons_append]
        rw [linesOf_cons c ((linesOf rest).2 ++ y), if_neg hc]
      | cons l ls => simp [hp]

/-- A buffer that is empty or ends in a newline leaves no trailing partial
line. -/
theorem linesOf_snd_nil_of_ends_nl :
    ∀ {s : List Char}, (s = [] ∨ s.getLast? = some '\n') → (linesOf s).2 = [] := by
  intro s
  induction s with
  | nil => intro _; rfl
  | cons c rest ih =>
    intro h
    rcases h with h | h
    · cases h
    · cases rest with
      | nil =>
        simp only [List.getLast?_singleton, Option.some.injEq] at h
        simp [linesOf_cons, h, linesOf]
      | cons d rest2 =>
        rw [List.getLast?_cons_cons] at h
        have h2 : (linesOf (d :: rest2)).2 = [] := ih (Or.inr h)
        rw [linesOf_cons]
        by_cases hc : c = '\n'
        · simp [hc, h2]
        · rw [if_neg hc]
          cases hp : (linesOf (d :: rest2)).1 with
          | nil =>
            exfalso
            have := linesOf_fst_nil hp
            rw [h2] at this
            exact List.cons_ne_nil d rest2 this.symm
          | cons l ls => simp [h2]

/-- Processing a concatenation of line runs: a `[DONE]` inside the first
run discards the second entirely; otherwise outputs concatenate. -/
theorem procLines_append (a b : List (List Char)) :
    procLines (a ++ b) =
      if (procLines a).closed then procLines a
      else ⟨(procLines a).out ++ (procLines b).out,
            (procLines a).pay ++ (procLines b).pay, (procLines b).closed⟩ := by
  induction a with
  | nil => simp [procLines]
  | cons l ls ih =>
    by_cases h1 : (pyStrip l).take 6 = dataPre
    · by_cases h2 : (pyStrip l).drop 6 = doneLit
      · simp [procLines, h1, h2]
      · simp only [List.cons_append, procLines, if_pos h1, if_neg h2]
        by_cases h3 : (procLines ls).closed
        · simp [ih, h3]
        · simp [ih, h3]
    · simp [procLines, h1, ih]

/-- Unfolding of `drain` into its two stages. -/
theorem drain_def (buf : List Char) :
    drain buf = ⟨(procLines (linesOf buf).1).out, (procLines (linesOf buf).1).pay,
      (linesOf buf).2, (procLines (linesOf buf).1).closed⟩ := rfl

/-- The buffer left by `drain` holds no complete line. -/
theorem drain_buf_fst_nil (s : List Char) : (linesOf (drain s).buf).1 = [] := by
  rw [drain_def]
  simp only []
  rw [linesOf_no_nl (nl_not_mem_linesOf_snd s)]

/-- Draining a concatenation: when the first part did not reach `[DONE]`,
its leftover merges with the second part and outputs concatenate; when it
did, everything later is discarded (the buffer component is the uniform
`linesOf` leftover, never read once closed). -/
theorem drain_append (x y : List Char) :
    drain (x ++ y) =
      if (drain x).closed then
        ⟨(drain x).out, (drain x).pay, (drain ((drain x).buf ++ y)).buf, true⟩
      else
        ⟨(drain x).out ++ (drain ((drain x).buf ++ y)).out,
          (drain x).pay ++ (drain ((drain x).buf ++ y)).pay,
          (drain ((drain x).buf ++ y)).buf,
          (drain ((drain x).buf ++ y)).closed⟩ := by
  simp only [drain_def, linesOf_append x y, procLines_append]
  by_cases h : (procLines (linesOf x).1).closed
  · simp [h]
  · simp [h]

/-- Running the chunk loop over nonempty chunks from a lineless buffer is
the same as draining the whole concatenated stream: the buffering makes
the processor chunk-boundary independent. -/
theorem goEvs_join : ∀ (cs : List (List Char)) (buf : List Char),
    (∀ c ∈ cs, c ≠ []) → (linesOf buf).1 = [] →
    goEvs (cs.map ReadEv.chunk) buf =
      ⟨(drain (buf ++ cs.flatten)).out, (drain (buf ++ cs.flatten)).pay,
        (drain (buf ++ cs.flatten)).closed⟩ := by
  intro cs
  induction cs with
  | nil =>
    intro buf hne hb
    have hs := linesOf_fst_nil hb
    simp [goEvs, drain_def, hb, hs, procLines]
  | cons c cs ih =>
    intro buf hne hb
    have hcne : c ≠ [] := hne c (List.mem_cons_self c cs)
    have hcE : c.isEmpty = false := by
      cases c with
      | nil => exact absurd rfl hcne
      | cons a b => rfl
    simp only [List.map_cons, goEvs, List.flatten_cons, hcE, Bool.false_eq_true, if_false]
    rw [← List.append_assoc, drain_append (buf ++ c) cs.flatten]
    by_cases hcl : (drain (buf ++ c)).closed
    · simp [hcl]
    · have hr := ih (drain (buf ++ c)).buf
        (fun d hd => hne d (List.mem_cons_of_mem c hd)) (drain_buf_fst_nil _)
      simp [hcl, hr]

set_option maxRecDepth 8192 in
/-- Appending bytes after a complete two-byte tail leaves its decode
intact. -/
theorem utf8Two_append (y : List Nat) (b : Nat) :
    ∀ (rest : List Nat) (p : Char × List Nat), utf8Two b rest = some p →
      utf8Two b (rest ++ y) = some (p.1, p.2 ++ y) := by
  intro rest p h
  match rest with
  | [] => simp [utf8Two] at h
  | b2 :: r2 =>
    rw [List.cons_append]
    simp only [utf8Two] at h ⊢
    by_cases hc : contByte b2
    · rw [if_pos hc] at h ⊢
      cases h
      rfl
    · rw [if_neg hc] at h
      simp at h

set_option maxRecDepth 8192 in
/-- Appending bytes after a complete three-byte tail leaves its decode
intact. -/
theorem utf8Three_append (y : List Nat) (b : Nat) :
    ∀ (rest : List Nat) (p : Char × List Nat), utf8Three b rest = some p →
      utf8Three b (rest ++ y) = some (p.1, p.2 ++ y) := by
  intro rest p h
  match rest with
  | [] => simp [utf8Three] at h
  | [b2] => simp [utf8Three] at h
  | b2 :: b3 :: r3 =>
    rw [List.cons_append, List.cons_append]
    simp only [utf8Three] at h ⊢
    by_cases hc : cont3 b b2 && contByte b3
    · rw [if_pos hc] at h ⊢
      cases h
      rfl
    · rw [if_neg hc] at h
      simp at h

set_option maxRecDepth 8192 in
/-- Appending bytes after a complete four-byte tail leaves its decode
intact. -/
theorem utf8Four_append (y : List Nat) (b : Nat) :
    ∀ (rest : List Nat) (p : Char × List Nat), utf8Four b rest = some p →
      utf8Four b (rest ++ y) = some (p.1, p.2 ++ y) := by
  intro rest p h
  match rest with
  | [] => simp [utf8Four] at h
  | [b2] => simp [utf8Four] at h
  | [b2, b3] => simp [utf8Four] at h
  | b2 :: b3 :: b4 :: r4 =>
    rw [List.cons_append, List.cons_append, List.cons_append]
    simp only [utf8Four] at h ⊢
    by_cases hc : cont4 b b2 && contByte b3 && contByte b4
    · rw [if_pos hc] at h ⊢
      cases h
      rfl
    · rw [if_neg hc] at h
      simp at h

set_option maxRecDepth 8192 in
/-- Decoding one scalar only looks at that scalar's bytes: appending more
bytes afterwards leaves the result intact (with the appended bytes in the
leftover). -/
theorem utf8DecodeOne_append (y : List Nat) :
    ∀ (a : List Nat) (p : Char × List Nat), utf8DecodeOne a = some p →
      utf8DecodeOne (a ++ y) = some (p.1, p.2 ++ y) := by
  intro a p h
  match a with
  | [] => simp [utf8DecodeOne] at h
  | b :: rest =>
    rw [List.cons_append]
    simp only [utf8DecodeOne] at h ⊢
    by_cases h1 : b ≤ 127
    · rw [if_pos h1] at h ⊢
      cases h
      rfl
    · rw [if_neg h1] at h ⊢
      by_cases h2 : 194 ≤ b ∧ b ≤ 223
      · rw [if_pos h2] at h ⊢
        exact utf8Two_append y b rest p h
      · rw [if_neg h2] at h ⊢
        by_cases h3 : 224 ≤ b ∧ b ≤ 239
        · rw [if_pos h3] at h ⊢
          exact utf8Three_append y b rest p h
        · rw [if_neg h3] at h ⊢
          by_cases h4 : 240 ≤ b ∧ b ≤ 244
          · rw [if_pos h4] at h ⊢
            exact utf8Four_append y b rest p h
          · rw [if_neg h4] at h
            simp at h

/-- An empty byte list decodes to the empty text at any fuel. -/
theorem utf8DecodeGo_nil (f : Nat) : utf8DecodeGo f [] = some [] := by
  cases f with
  | zero => rfl
  | succ n => rfl

/-- More fuel never changes a successful decode. -/
theorem utf8DecodeGo_mono :
    ∀ (f f2 : Nat) (bs : List Nat) (cs : List Char),
      utf8DecodeGo f bs = some cs → f ≤ f2 → utf8DecodeGo f2 bs = some cs := by
  intro f
  induction f with
  | zero =>
    intro f2 bs cs h _
    cases bs with
    | nil => rw [utf8DecodeGo_nil] at h ⊢; exact h
    | cons b rest => simp [utf8DecodeGo] at h
  | succ f ih =>
    intro f2 bs cs h hle
    cases bs with
    | nil => rw [utf8DecodeGo_nil] at h ⊢; exact h
    | cons b rest =>
      obtain ⟨f3, rfl⟩ : ∃ f3, f2 = f3 + 1 := ⟨f2 - 1, by omega⟩
      simp only [utf8DecodeGo] at h ⊢
      cases ho : utf8DecodeOne (b :: rest) with
      | none => simp [ho] at h
      | some p =>
        simp only [ho] at h ⊢
        cases hg : utf8DecodeGo f p.2 with
        | none => simp [hg] at h
        | some cs2 =>
          simp only [hg] at h
          simp only [ih f3 p.2 cs2 hg (by omega)]
          exact h

/-- Decoding distributes over concatenation of individually valid byte
runs (UTF-8 concatenations of complete scalars decode compositionally). -/
theorem utf8DecodeGo_concat :
    ∀ (f : Nat) (a : List Nat) (x : List Char), utf8DecodeGo f a = some x →
    ∀ (g : Nat) (b : List Nat) (y : List Char), utf8DecodeGo g b = some y →
      utf8DecodeGo (f + g) (a ++ b) = some (x ++ y) := by
  intro f
  induction f with
  | zero =>
    intro a x h g b y hb
    cases a with
    | nil =>
      rw [utf8DecodeGo_nil] at h
      have hx : [] = x := Option.some.inj h
      subst hx
      simpa using utf8DecodeGo_mono g (0 + g) b y hb (by omega)
    | cons b0 rest => simp [utf8DecodeGo] at h
  | succ f ih =>
    intro a x h g b y hb
    cases a with
    | nil =>
      rw [utf8DecodeGo_nil] at h
      have hx : [] = x := Option.some.inj h
      subst hx
      simpa using utf8DecodeGo_mono g (f + 1 + g) b y hb (by omega)
    | cons b0 rest =>
      simp only [utf8DecodeGo] at h
      cases ho : utf8DecodeOne (b0 :: rest) with
      | none => simp [ho] at h
      | some p =>
        simp only [ho] at h
        cases hg : utf8DecodeGo f p.2 with
        | none => simp [hg] at h
        | some cs =>
          simp only [hg] at h
          injection h with hx
          rw [List.cons_append,
            show f + 1 + g = (f + g) + 1 from by omega]
          simp only [utf8DecodeGo]
          have hone : utf8DecodeOne (b0 :: (rest ++ b)) = some (p.1, p.2 ++ b) := by
            have h2 := utf8DecodeOne_append b (b0 :: rest) p ho
            simpa using h2
          simp only [hone, ih p.2 cs hg g b y hb, ← hx]
          rfl

/-- Full-stream version of decode concatenation. -/
theorem utf8Decode_append (a b : List Nat) (x y : List Char)
    (ha : utf8Decode a = some x) (hb : utf8Decode b = some y) :
    utf8Decode (a ++ b) = some (x ++ y) := by
  unfold utf8Decode at ha hb ⊢
  rw [List.length_append]
  exact utf8DecodeGo_concat a.length a x ha b.length b y hb

/-- A concatenation of individually decodable chunks decodes. -/
theorem utf8Decode_flatten :
    ∀ (bs : List (List Nat)), (∀ c ∈ bs, (utf8Decode c).isSome) →
      (utf8Decode bs.flatten).isSome := by
  intro bs
  induction bs with
  | nil => intro _; rfl
  | cons c bs ih =>
    intro h
    obtain ⟨x, hx⟩ := Option.isSome_iff_exists.mp (h c (List.mem_cons_self c bs))
    obtain ⟨y, hy⟩ := Option.isSome_iff_exists.mp
      (ih (fun d hd => h d (List.mem_cons_of_mem c hd)))
    rw [List.flatten_cons, utf8Decode_append c bs.flatten x y hx hy]
    rfl

/-- Running the byte loop over nonempty, individually decodable chunks
from a lineless buffer is the same as draining the decoded whole stream. -/
theorem goBytes_join : ∀ (bs : List (List Nat)) (buf s : List Char),
    (∀ c ∈ bs, c ≠ []) → (∀ c ∈ bs, (utf8Decode c).isSome) →
    (linesOf buf).1 = [] → utf8Decode bs.flatten = some s →
    goBytes bs buf =
      ⟨(drain (buf ++ s)).out, (drain (buf ++ s)).pay,
        (drain (buf ++ s)).closed⟩ := by
  intro bs
  induction bs with
  | nil =>
    intro buf s hne hdec hb hs
    have hs0 : (some [] : Option (List Char)) = some s := hs
    injection hs0 with hs1
    subst hs1
    have h2 := linesOf_fst_nil hb
    simp [goBytes, drain_def, hb, h2, procLines]
  | cons c bs ih =>
    intro buf s hne hdec hb hs
    have hcne : c ≠ [] := hne c (List.mem_cons_self c bs)
    have hcE : c.isEmpty = false := by
      cases c with
      | nil => exact absurd rfl hcne
      | cons a b => rfl
    obtain ⟨sc, hsc⟩ := Option.isSome_iff_exists.mp
      (hdec c (List.mem_cons_self c bs))
    obtain ⟨srest, hsrest⟩ := Option.isSome_iff_exists.mp
      (utf8Decode_flatten bs (fun d hd => hdec d (List.mem_cons_of_mem c hd)))
    have hsdec : s = sc ++ srest := by
      have h2 : utf8Decode ((c :: bs).flatten) = some (sc ++ srest) := by
        rw [List.flatten_cons]
        exact utf8Decode_append c bs.flatten sc srest hsc hsrest
      exact Option.some.inj (hs.symm.trans h2)
    subst hsdec
    simp only [goBytes, hcE, Bool.false_eq_true, if_false, hsc]
    rw [← List.append_assoc, drain_append (buf ++ sc) srest]
    by_cases hcl : (drain (buf ++ sc)).closed
    · simp [hcl]
    · have hr := ih (drain (buf ++ sc)).buf srest
        (fun d hd => hne d (List.mem_cons_of_mem c hd))
        (fun d hd => hdec d (List.mem_cons_of_mem c hd))
        (drain_buf_fst_nil _) hsrest
      simp [hcl, hr]

/-- Counterexample for C2 as stated: the two byte chunkings
`[eFrameBytes]` and `[eFrameBytes.take 40, eFrameBytes.drop 40]`
reconstruct the same byte stream, but the second splits the two-byte
UTF-8 character between its chunks, so `chunk.decode("utf-8")` raises and
the swallowed error silently truncates the stream: one chunking yields the
frame's payload and delta, the other yields nothing. -/
theorem claim2_rechunk_cex :
    (([eFrameBytes.take 40, eFrameBytes.drop 40] : List (List Nat)).flatten =
      ([eFrameBytes] : List (List Nat)).flatten) ∧
    (∀ c ∈ ([eFrameBytes.take 40, eFrameBytes.drop 40] : List (List Nat)),
      c ≠ []) ∧
    (runByteProcessor [eFrameBytes]).pay = [ePayload] ∧
    (runByteProcessor [eFrameBytes]).out.length = 1 ∧
    (runByteProcessor [eFrameBytes.take 40, eFrameBytes.drop 40]).pay = [] ∧
    (runByteProcessor [eFrameBytes.take 40, eFrameBytes.drop 40]).out.length
      = 0 :=
  ⟨by decide, by decide, rfl, rfl, rfl, rfl⟩

/-- C2 (corrected, amended part): the decoder's output is invariant under
re-chunking of the byte stream provided no chunk boundary splits a
multibyte UTF-8 character — every chunk decodes on its own, as every
chunking into complete characters does. (When a boundary does split one,
`chunk.decode("utf-8")` raises `UnicodeDecodeError`, which the session
swallows, silently truncating the stream; an empty read means EOF, so
live chunks are nonempty.) -/
theorem claim2_rechunk_invariance (bs1 bs2 : List (List Nat))
    (h1 : ∀ c ∈ bs1, c ≠ []) (h2 : ∀ c ∈ bs2, c ≠ [])
    (hd1 : ∀ c ∈ bs1, (utf8Decode c).isSome)
    (hd2 : ∀ c ∈ bs2, (utf8Decode c).isSome)
    (hj : bs1.flatten = bs2.flatten) :
    runByteProcessor bs1 = runByteProcessor bs2 := by
  obtain ⟨s, hs⟩ := Option.isSome_iff_exists.mp (utf8Decode_flatten bs1 hd1)
  unfold runByteProcessor
  rw [goBytes_join bs1 [] s h1 hd1 rfl hs,
    goBytes_join bs2 [] s h2 hd2 rfl (by rw [← hj]; exact hs)]

/-- Witness for C2's amended claim at a concrete character-aligned
re-chunking of scenario A's first frame. -/
theorem claim2_rechunk_invariance_witness :
    (∀ c ∈ ([utf8Encode frameHi] : List (List Nat)), c ≠ []) ∧
    (∀ c ∈ ([(utf8Encode frameHi).take 10, (utf8Encode frameHi).drop 10] :
      List (List Nat)), c ≠ []) ∧
    (∀ c ∈ ([utf8Encode frameHi] : List (List Nat)),
      (utf8Decode c).isSome) ∧
    (∀ c ∈ ([(utf8Encode frameHi).take 10, (utf8Encode frameHi).drop 10] :
      List (List Nat)), (utf8Decode c).isSome) ∧
    runByteProcessor [utf8Encode frameHi] =
      runByteProcessor
        [(utf8Encode frameHi).take 10, (utf8Encode frameHi).drop 10] :=
  ⟨by decide, by decide, by decide, by decide,
    claim2_rechunk_invariance _ _ (by decide) (by decide) (by decide)
      (by decide) (by decide)⟩

/-- C3 (confirmed): once a complete line with payload exactly `[DONE]` is
decoded, the stream yields no further chunks and no further payloads —
everything after that line, whether already buffered or still readable, is
discarded. -/
theorem claim3_done_terminal (cs : List (List Char)) (u v : List Char)
    (hne : ∀ c ∈ cs, c ≠ [])
    (hj : cs.flatten = u ++ doneFrame ++ v)
    (hu : u = [] ∨ u.getLast? = some '\n') :
    (runProcessor cs).out = (drain (u ++ doneFrame)).out ∧
    (runProcessor cs).pay = (drain (u ++ doneFrame)).pay := by
  unfold runProcessor
  rw [goEvs_join cs [] hne rfl]
  simp only [List.nil_append]
  rw [hj]
  have hclosed : (drain (u ++ doneFrame)).closed = true := by
    rw [drain_append u doneFrame]
    by_cases hcu : (drain u).closed
    · simp [hcu]
    · have hbuf : (drain u).buf = [] := by
        rw [drain_def]
        exact linesOf_snd_nil_of_ends_nl hu
      simp only [hcu, Bool.false_eq_true, if_false, hbuf, List.nil_append]
      decide
  rw [drain_append (u ++ doneFrame) v]
  simp [hclosed]

/-- Witness for C3: a single chunk carrying a frame, the `[DONE]` line and
a further frame after it. -/
theorem claim3_done_terminal_witness :
    (∀ c ∈ [frameHi ++ doneFrame ++ frameThere], c ≠ ([] : List Char)) ∧
    ([frameHi ++ doneFrame ++ frameThere].flatten = frameHi ++ doneFrame ++ frameThere) ∧
    (frameHi = [] ∨ frameHi.getLast? = some '\n') ∧
    ((runProcessor [frameHi ++ doneFrame ++ frameThere]).out =
        (drain (frameHi ++ doneFrame)).out ∧
      (runProcessor [frameHi ++ doneFrame ++ frameThere]).pay =
        (drain (frameHi ++ doneFrame)).pay) :=
  ⟨by decide, by decide, by decide,
    claim3_done_terminal _ frameHi frameThere (by decide) (by decide) (by decide)⟩

/-- A read error behaves exactly like EOF for the iteration's outputs: the
`except` at line 82 of `state.py` swallows it. -/
theorem goEvs_err_absorb (e : List Char) (rest : List ReadEv) :
    ∀ (evs : List ReadEv) (buf : List Char),
      goEvs (evs ++ ReadEv.err e :: rest) buf = goEvs evs buf := by
  intro evs
  induction evs with
  | nil => intro buf; rfl
  | cons ev evs ih =>
    intro buf
    cases ev with
    | err m => rfl
    | chunk c =>
      simp only [List.cons_append, goEvs]
      by_cases hc : c.isEmpty
      · simp [hc]
      · by_cases hcl : (drain (buf ++ c)).closed
        · simp [hc, hcl]
        · simp [hc, hcl, ih]

/-- A read error mid-trace leaves the whole session run (outputs and final
resource state) identical to the run that simply ends before it. -/
theorem runSession_err_absorb (evs : List ReadEv) (e : List Char)
    (rest : List ReadEv) :
    runSession (evs ++ ReadEv.err e :: rest) = runSession evs := by
  unfold runSession
  rw [goEvs_err_absorb]

/-! ### Lemmas about the consumption loop -/

/-- Unfolding of `updateLast` past a fixed head. -/
theorem updateLast_cons_cons (f : Message → Message) (a b : Message)
    (rest : List Message) :
    updateLast f (a :: b :: rest) = a :: updateLast f (b :: rest) := rfl

/-- Mutating the last element of `xs ++ [m]` rewrites exactly `m`. -/
theorem updateLast_concat (f : Message → Message) :
    ∀ (xs : List Message) (m : Message), updateLast f (xs ++ [m]) = xs ++ [f m] := by
  intro xs
  induction xs with
  | nil => intro m; rfl
  | cons x xs ih =>
    intro m
    cases xs with
    | nil => rfl
    | cons y ys =>
      have h := ih m
      simp only [List.cons_append] at h ⊢
      rw [updateLast_cons_cons, h]

/-- One loop body application keeps the history in `prefix ++ [last]` form:
only the final message is ever mutated. -/
theorem stepChunk_fst_concat (ch : StreamChunk) (xs : List Message)
    (m : Message) (a r : List Char) :
    ∃ m2, (stepChunk ch (xs ++ [m]) a r).1 = xs ++ [m2] := by
  simp only [stepChunk]
  repeat' split
  all_goals
    first
      | exact ⟨m, rfl⟩
      | (rw [updateLast_concat]; exact ⟨_, rfl⟩)
      | (rw [updateLast_concat, updateLast_concat]; exact ⟨_, rfl⟩)

/-- The whole consumption loop keeps the history in `prefix ++ [last]`
form: messages before the placeholder are never touched. -/
theorem consume_hist_concat (flags : Nat → Bool) :
    ∀ (chunks : List StreamChunk) (i : Nat) (xs : List Message) (m : Message)
      (a r : List Char),
      ∃ m2, (consumeLoop flags i chunks (xs ++ [m]) a r).hist = xs ++ [m2] := by
  intro chunks
  induction chunks with
  | nil => intro i xs m a r; exact ⟨m, rfl⟩
  | cons ch rest ih =>
    intro i xs m a r
    simp only [consumeLoop]
    by_cases hf : flags i
    · simp only [hf, if_true]
      obtain ⟨m2, hm2⟩ := stepChunk_fst_concat ch xs m a r
      by_cases he : (stepChunk ch (xs ++ [m]) a r).2.2.2
      · simp only [he, if_true]
        exact ⟨m2, hm2⟩
      · simp only [he, Bool.false_eq_true, if_false]
        rw [hm2]
        exact ih (i + 1) xs m2 _ _
    · simp only [hf, Bool.false_eq_true, if_false]
      exact ⟨m, rfl⟩

/-- Once the observed `processing` flag is false from position `k` on, the
loop's history and error outcome only depend on the first `k` chunks. -/
theorem consume_trunc (flags : Nat → Bool) (k : Nat)
    (hc : ∀ i, k ≤ i → flags i = false) :
    ∀ (chunks : List StreamChunk) (n : Nat) (h : List Message) (a r : List Char),
      (consumeLoop flags n chunks h a r).hist =
        (consumeLoop flags n (chunks.take (k - n)) h a r).hist ∧
      (consumeLoop flags n chunks h a r).errored =
        (consumeLoop flags n (chunks.take (k - n)) h a r).errored := by
  intro chunks
  induction chunks with
  | nil => intro n h a r; simp
  | cons ch rest ih =>
    intro n h a r
    by_cases hkn : k ≤ n
    · have hf : flags n = false := hc n hkn
      have hz : k - n = 0 := Nat.sub_eq_zero_of_le hkn
      rw [hz]
      simp [consumeLoop, hf]
    · have hlt : n < k := Nat.lt_of_not_le hkn
      have hk1 : k - n = (k - (n + 1)) + 1 := by omega
      rw [hk1, List.take_succ_cons]
      by_cases hf : flags n
      · simp only [consumeLoop, hf, if_true]
        by_cases he : (stepChunk ch h a r).2.2.2
        · simp [he]
        · simp only [he, Bool.false_eq_true, if_false]
          exact ih (n + 1) _ _ _
      · simp [consumeLoop, hf]

/-- If the flag is false at position `k` and at least `k + 1` chunks are
available, the loop stops before exhausting the stream. -/
theorem consume_broke (flags : Nat → Bool) (k : Nat) (hk : flags k = false) :
    ∀ (chunks : List StreamChunk) (n : Nat) (h : List Message) (a r : List Char),
      n ≤ k → k - n < chunks.length →
      (consumeLoop flags n chunks h a r).brokeEarly = true := by
  intro chunks
  induction chunks with
  | nil => intro n h a r hn hlen; simp at hlen
  | cons ch rest ih =>
    intro n h a r hn hlen
    by_cases hf : flags n
    · have hne : n ≠ k := by
        intro he
        rw [he, hk] at hf
        exact Bool.false_ne_true hf
      have hnk : n < k := Nat.lt_of_le_of_ne hn hne
      simp only [consumeLoop, hf, if_true]
      by_cases he : (stepChunk ch h a r).2.2.2
      · simp [he]
      · simp only [he, Bool.false_eq_true, if_false]
        simp only [List.length_cons] at hlen
        exact ih (n + 1) _ _ _ hnk (by omega)
    · simp [consumeLoop, hf]

/-- The post-loop history only depends on the chunks before the
cancellation point. -/
theorem finalHist_trunc (flags : Nat → Bool) (k : Nat)
    (hc : ∀ i, k ≤ i → flags i = false) (chunks : List StreamChunk)
    (base : List Message) :
    finalHist flags chunks base = finalHist flags (chunks.take k) base := by
  unfold finalHist
  obtain ⟨h1, h2⟩ := consume_trunc flags k hc chunks 0 base [] []
  rw [Nat.sub_zero] at h1 h2
  simp only [h1, h2]

/-- Unfolding equation of `process_question` on the successful-connection
path with a nonblank question. -/
theorem process_question_run (st : AppState) (evs : List ReadEv)
    (flags : Nat → Bool) (hq : (pyStrip st.question).isEmpty = false) :
    process_question st none evs flags =
      ⟨finalHist flags (runSession evs).out
          (st.chat_history ++ [⟨"user".toList, some st.question, none⟩,
            ⟨"assistant".toList, none, none⟩]),
        [], false, st.editing_user_message_index,
        some (format_messages st.chat_history st.question),
        some (if (consumeLoop flags 0 (runSession evs).out
              (st.chat_history ++ [⟨"user".toList, some st.question, none⟩,
                ⟨"assistant".toList, none, none⟩]) [] []).brokeEarly
          then closeProc startRes else closeProc (runSession evs).res)⟩ := by
  unfold process_question
  simp only [hq, Bool.false_eq_true, if_false]

/-- Unfolding equation of `update_user_message` on the
successful-connection path with an active editing index and a nonblank
question. -/
theorem update_user_message_run (st : AppState) (evs : List ReadEv)
    (flags : Nat → Bool) (i : Nat)
    (hi : st.editing_user_message_index = some i)
    (hq : (pyStrip st.question).isEmpty = false) :
    update_user_message st none evs flags =
      ⟨finalHist flags (runSession evs).out
          ((setContentAt st.chat_history i st.question).take (i + 1) ++
            [⟨"assistant".toList, none, none⟩]),
        [], false, none,
        some (format_messages
          ((setContentAt st.chat_history i st.question).take (i + 1)) st.question),
        some (if (consumeLoop flags 0 (runSession evs).out
              ((setContentAt st.chat_history i st.question).take (i + 1) ++
                [⟨"assistant".toList, none, none⟩]) [] []).brokeEarly
          then closeProc startRes else (runSession evs).res)⟩ := by
  unfold update_user_message
  rw [hi]
  simp only [hq, Bool.false_eq_true, if_false]

/-- Mutating the last element past a two-message suffix. -/
theorem updateLast_concat2 (f : Message → Message) (xs : List Message)
    (m1 m2 : Message) :
    updateLast f (xs ++ [m1, m2]) = xs ++ [m1, f m2] := by
  rw [show xs ++ [m1, m2] = (xs ++ [m1]) ++ [m2] from by simp, updateLast_concat]
  simp

/-! ### The claims -/

/-- C1 (confirmed): for every submitted question, when the server streams
the frames `data: {"choices":[{"delta":{"content":"Hi"}}]}`,
`data: {"choices":[{"delta":{"content":" there"}}]}`, `data: [DONE]`, the
orchestrator's consumption loop leaves the last (assistant) message of the
conversation with content `"Hi there"`: each content fragment is appended
to the previously accumulated text in arrival order, never overwriting it
with only the new fragment. -/
theorem claim1_scenarioA_accumulates (st : AppState)
    (hq : (pyStrip st.question).isEmpty = false) :
    (process_question st none scenarioAEvs (fun _ => true)).chat_history =
      st.chat_history ++ [⟨"user".toList, some st.question, none⟩,
        ⟨"assistant".toList, some ("Hi there".toList), none⟩] := by
  rw [process_question_run st scenarioAEvs (fun _ => true) hq]
  show finalHist (fun _ => true) (runSession scenarioAEvs).out
      (st.chat_history ++ [⟨"user".toList, some st.question, none⟩,
        ⟨"assistant".toList, none, none⟩]) = _
  have hout : (runSession scenarioAEvs).out =
      [⟨some (Json.str ("Hi".toList)), none, false, none⟩,
        ⟨some (Json.str (" there".toList)), none, false, none⟩] := rfl
  rw [hout]
  unfold finalHist
  simp only [consumeLoop, stepChunk, pyTruthyO, pyTruthy, if_true]
  norm_num
  simp only [updateLast_concat2]

/-- Witness for C1 at a concrete submitted question and empty prior
history. -/
theorem claim1_scenarioA_accumulates_witness :
    (pyStrip (("Hello".toList : List Char))).isEmpty = false ∧
    (process_question ⟨[], "Hello".toList, false, none⟩ none scenarioAEvs
        (fun _ => true)).chat_history =
      [⟨"user".toList, some ("Hello".toList), none⟩,
        ⟨"assistant".toList, some ("Hi there".toList), none⟩] :=
  ⟨by decide,
    by
      have h := claim1_scenarioA_accumulates ⟨[], "Hello".toList, false, none⟩
        (by decide)
      simpa using h⟩

/-- C4 (corrected): a transport-level read error mid-stream does NOT
propagate to the orchestrator: `StreamProcessor.__aiter__` catches it
(printing only), releases its resources, and ends the iteration exactly as
if the stream had been exhausted at that point. The orchestrator therefore
appends no `Error: <message>` text; whatever content and reasoning had
accumulated before the failure is preserved, and the turn ends in the same
state as a turn whose stream simply stopped before the failed read. -/
theorem claim4_error_swallowed (st : AppState) (conn : Option (List Char))
    (evs : List ReadEv) (e : List Char) (rest : List ReadEv)
    (flags : Nat → Bool) :
    process_question st conn (evs ++ ReadEv.err e :: rest) flags =
      process_question st conn evs flags := by
  simp only [process_question, runSession_err_absorb]

/-- Counterexample for C4 as stated: after one content frame a read error
occurs; the final conversation carries the partial content `"Hi"` and no
`Error: <message>` assistant message anywhere, while the claim requires
the error to reach the orchestrator and an error text to be set. The
session's resources were nonetheless released. -/
theorem claim4_error_swallowed_cex :
    (process_question ⟨[], "Hello".toList, false, none⟩ none
        [ReadEv.chunk frameHi, ReadEv.err ("boom".toList)]
        (fun _ => true)).chat_history =
      [⟨"user".toList, some ("Hello".toList), none⟩,
        ⟨"assistant".toList, some ("Hi".toList), none⟩] ∧
    (process_question ⟨[], "Hello".toList, false, none⟩ none
        [ReadEv.chunk frameHi, ReadEv.err ("boom".toList)]
        (fun _ => true)).res = some ⟨true, true, true, true⟩ ∧
    (process_question ⟨[], "Hello".toList, false, none⟩ none
        [ReadEv.chunk frameHi, ReadEv.err ("boom".toList)]
        (fun _ => true)).processing = false :=
  ⟨rfl, rfl, rfl⟩

/-- C5 (corrected, amended part): the streaming delta parser ignores
`finish_reason` entirely — every `StreamChunk` it ever yields has
`is_done = false`, whatever the payload says. -/
theorem claim5_terminal_never_set (data : List Char) :
    (parseFrame data).all (fun c => !c.is_done) = true := by
  unfold parseFrame
  cases hj : jsonLoads data with
  | none => rfl
  | some j =>
    unfold extractDelta
    repeat' split
    all_goals simp

/-- Counterexample for C5 as stated: a well-formed payload whose first
choice carries `finish_reason = "stop"` still produces a chunk with
`is_done = false`, not a terminal delta. -/
theorem claim5_finish_reason_cex :
    parseFrame stopPayload =
      [⟨some (Json.str ("hi".toList)), none, false, none⟩] ∧
    (((jsonLoads stopPayload).bind (fun j => jGet j ("choices".toList))).bind
        (fun ch => jIdx ch 0)).bind
        (fun c0 => jGet c0 ("finish_reason".toList)) =
      some (Json.str ("stop".toList)) :=
  ⟨rfl, rfl⟩

/-- C6 (code bug): on the `[DONE]` termination path the session never
releases its resources: the `[DONE]` branch sets `_closed = True` before
`close()` runs, and `close()`'s whole body is guarded by
`if not self._closed`, so neither `response.release()` nor
`session.close()` is ever called — not by the generator's `finally`, and
not by a later consumer-side `close()` either. On the EOF path (no
`[DONE]`), by contrast, resources are released. -/
theorem claim6_done_path_never_releases :
    (runSession [ReadEv.chunk doneFrame]).res.respReleased = false ∧
    (runSession [ReadEv.chunk doneFrame]).res.sessClosed = false ∧
    (closeProc (runSession [ReadEv.chunk doneFrame]).res).respReleased = false ∧
    (closeProc (runSession [ReadEv.chunk doneFrame]).res).sessClosed = false ∧
    (runSession [ReadEv.chunk doneFrame]).res.closed = true ∧
    (runSession [ReadEv.chunk frameHi]).res.respReleased = true ∧
    (runSession [ReadEv.chunk frameHi]).res.sessClosed = true :=
  ⟨rfl, rfl, rfl, rfl, rfl, rfl, rfl⟩

/-- A newline-free line followed by `\n` splits off as one complete line. -/
theorem linesOf_line (l t : List Char) (h : '\n' ∉ l) :
    linesOf (l ++ '\n' :: t) = (l :: (linesOf t).1, (linesOf t).2) := by
  induction l with
  | nil => simp [linesOf_cons]
  | cons c l ih =>
    have hc : ¬ c = '\n' := fun he => h (he ▸ List.mem_cons_self c l)
    have ih2 := ih (fun hm => h (List.mem_cons_of_mem c hm))
    rw [List.cons_append, linesOf_cons, if_neg hc, ih2]

/-- A concatenation of wire frames is empty or ends with a newline. -/
theorem mkFrame_join_ends_nl (ps : List (List Char)) :
    (ps.map mkFrame).flatten = [] ∨
      ((ps.map mkFrame).flatten.getLast? = some '\n') := by
  induction ps with
  | nil => exact Or.inl rfl
  | cons p ps ih =>
    right
    simp only [List.map_cons, List.flatten_cons]
    rcases ih with h | h
    · rw [h, List.append_nil]
      show (mkFrame p).getLast? = some '\n'
      rw [mkFrame]
      exact List.getLast?_concat _
    · rw [List.getLast?_append, h]
      rfl

/-- A frame whose payload neither reads `[DONE]` nor parses as JSON
contributes nothing: the decoder skips it and continues with the rest of
the stream. -/
theorem drain_bad_frame (bad G : List Char)
    (hnl : '\n' ∉ bad)
    (hdone : (pyStrip (dataPre ++ bad)).drop 6 ≠ doneLit)
    (hmal : jsonLoads ((pyStrip (dataPre ++ bad)).drop 6) = none) :
    (drain (mkFrame bad ++ G)).out = (drain G).out := by
  have hnb : '\n' ∉ dataPre ++ bad := by
    intro hm
    rcases List.mem_append.mp hm with h | h
    · revert h; decide
    · exact hnl h
  have hshape : mkFrame bad ++ G = (dataPre ++ bad) ++ '\n' :: G := by
    rw [mkFrame]
    simp
  rw [hshape, drain_def, drain_def, linesOf_line _ _ hnb]
  show (procLines ((dataPre ++ bad) :: (linesOf G).1)).out = _
  by_cases htk : (pyStrip (dataPre ++ bad)).take 6 = dataPre
  · simp only [procLines, htk, if_true, if_neg hdone]
    have : parseFrame ((pyStrip (dataPre ++ bad)).drop 6) = [] := by
      unfold parseFrame
      rw [hmal]
    rw [this]
    rfl
  · simp only [procLines, htk, if_false]

/-- C7 (confirmed): a sequence of SSE frames containing one payload that
fails JSON parsing among otherwise well-formed frames does not abort the
session: the malformed frame yields no delta and is skipped, and the
yielded chunks are exactly those of the same stream without the bad frame,
in the same order. -/
theorem claim7_malformed_skip (ps qs : List (List Char)) (bad : List Char)
    (hnl : '\n' ∉ bad)
    (hdone : (pyStrip (dataPre ++ bad)).drop 6 ≠ doneLit)
    (hmal : jsonLoads ((pyStrip (dataPre ++ bad)).drop 6) = none) :
    (drain (((ps ++ bad :: qs).map mkFrame).flatten)).out =
      (drain (((ps ++ qs).map mkFrame).flatten)).out := by
  simp only [List.map_append, List.flatten_append, List.map_cons, List.flatten_cons]
  rw [drain_append ((ps.map mkFrame).flatten) (mkFrame bad ++ (qs.map mkFrame).flatten),
    drain_append ((ps.map mkFrame).flatten) ((qs.map mkFrame).flatten)]
  by_cases hcl : (drain ((ps.map mkFrame).flatten)).closed
  · simp [hcl]
  · have hbuf : (drain ((ps.map mkFrame).flatten)).buf = [] := by
      rw [drain_def]
      exact linesOf_snd_nil_of_ends_nl (mkFrame_join_ends_nl ps)
    simp only [hcl, Bool.false_eq_true, if_false, hbuf, List.nil_append]
    rw [drain_bad_frame bad _ hnl hdone hmal]

/-- Witness for C7: the scenario A frames surrounding the unparsable
payload `oops`. -/
theorem claim7_malformed_skip_witness :
    ('\n' ∉ ("oops".toList : List Char)) ∧
    (pyStrip (dataPre ++ "oops".toList)).drop 6 ≠ doneLit ∧
    jsonLoads ((pyStrip (dataPre ++ "oops".toList)).drop 6) = none ∧
    (drain ((([hiPayload] ++ "oops".toList :: [therePayload]).map mkFrame).flatten)).out =
      (drain ((([hiPayload] ++ [therePayload]).map mkFrame).flatten)).out :=
  ⟨by decide, by decide, rfl,
    claim7_malformed_skip [hiPayload] [therePayload] ("oops".toList)
      (by decide) (by decide) rfl⟩

/-- C8 (confirmed): once `stop_process` has cleared the shared `processing`
flag mid-stream (the observed flag is false from checkpoint `k` on, while
more deltas were still available), no later delta mutates the conversation
— the final history equals the one computed from the first `k` deltas
alone — and the stream session reaches `Closed` with the response released
and the client session closed. -/
theorem claim8_cancel_no_mutation (st : AppState) (evs : List ReadEv)
    (k : Nat) (flags : Nat → Bool)
    (hq : (pyStrip st.question).isEmpty = false)
    (hc : ∀ i, k ≤ i → flags i = false)
    (hk : k < (runSession evs).out.length) :
    (process_question st none evs flags).chat_history =
      finalHist flags ((runSession evs).out.take k)
        (st.chat_history ++ [⟨"user".toList, some st.question, none⟩,
          ⟨"assistant".toList, none, none⟩]) ∧
    (process_question st none evs flags).res = some ⟨true, true, true, true⟩ ∧
    (process_question st none evs flags).processing = false := by
  rw [process_question_run st evs flags hq]
  refine ⟨finalHist_trunc flags k hc _ _, ?_, rfl⟩
  have hb : (consumeLoop flags 0 (runSession evs).out
      (st.chat_history ++ [⟨"user".toList, some st.question, none⟩,
        ⟨"assistant".toList, none, none⟩]) [] []).brokeEarly = true :=
    consume_broke flags k (hc k le_rfl) _ 0 _ [] [] (Nat.zero_le k)
      (by simpa using hk)
  show some (if _ then _ else _) = _
  rw [hb]
  rfl

/-- Witness for C8: cancellation observed before the first delta of
scenario A is handed over. -/
theorem claim8_cancel_no_mutation_witness :
    (pyStrip (("Hello".toList : List Char))).isEmpty = false ∧
    (∀ i, 0 ≤ i → (fun (_ : Nat) => false) i = false) ∧
    0 < (runSession scenarioAEvs).out.length ∧
    ((process_question ⟨[], "Hello".toList, false, none⟩ none scenarioAEvs
          (fun _ => false)).chat_history =
        finalHist (fun _ => false) ((runSession scenarioAEvs).out.take 0)
          ([] ++ [⟨"user".toList, some ("Hello".toList), none⟩,
            ⟨"assistant".toList, none, none⟩]) ∧
      (process_question ⟨[], "Hello".toList, false, none⟩ none scenarioAEvs
          (fun _ => false)).res = some ⟨true, true, true, true⟩ ∧
      (process_question ⟨[], "Hello".toList, false, none⟩ none scenarioAEvs
          (fun _ => false)).processing = false) :=
  ⟨by decide, fun i _ => rfl, by decide,
    claim8_cancel_no_mutation ⟨[], "Hello".toList, false, none⟩ scenarioAEvs 0
      (fun _ => false) (by decide) (fun i _ => rfl) (by decide)⟩

/-- In-place content assignment preserves the history length. -/
theorem setContentAt_length :
    ∀ (hist : List Message) (i : Nat) (c : List Char),
      (setContentAt hist i c).length = hist.length := by
  intro hist
  induction hist with
  | nil => intro i c; rfl
  | cons m rest ih =>
    intro i c
    cases i with
    | zero => rfl
    | succ n => simp [setContentAt, ih]

/-- Counterexample for C9 as stated: editing index 1 of the 3-message
conversation `[user "a", assistant "b", user "c"]` with new text `"X"`
does not truncate to `[user "a"]` — the message at index 1 is kept, its
content overwritten with `"X"`, and the regeneration is seeded with that
kept message (so the outbound payload contains it, and the new text twice). -/
theorem claim9_truncation_cex :
    (update_user_message ⟨[⟨"user".toList, some ("a".toList), none⟩,
        ⟨"assistant".toList, some ("b".toList), none⟩,
        ⟨"user".toList, some ("c".toList), none⟩], "X".toList, false, some 1⟩
        none [] (fun _ => true)).chat_history =
      [⟨"user".toList, some ("a".toList), none⟩,
        ⟨"assistant".toList, some ("X".toList), none⟩,
        ⟨"assistant".toList, none, none⟩] ∧
    (update_user_message ⟨[⟨"user".toList, some ("a".toList), none⟩,
        ⟨"assistant".toList, some ("b".toList), none⟩,
        ⟨"user".toList, some ("c".toList), none⟩], "X".toList, false, some 1⟩
        none [] (fun _ => true)).sent =
      some [("user".toList, "a".toList), ("assistant".toList, "X".toList),
        ("user".toList, "X".toList)] :=
  ⟨rfl, rfl⟩

/-- C9 (corrected, amended part): `update_user_message` replaces the
content at the edited index with the new text and truncates the
conversation to the first `index + 1` messages — the messages before the
index plus the edited slot itself — then re-submits seeded with exactly
that truncated history; everything after the edited slot is discarded, and
the regeneration appends to (never rewrites) that kept prefix. -/
theorem claim9_truncation_amended (st : AppState) (evs : List ReadEv)
    (flags : Nat → Bool) (i : Nat)
    (hi : st.editing_user_message_index = some i)
    (hq : (pyStrip st.question).isEmpty = false)
    (hlen : i < st.chat_history.length) :
    (update_user_message st none evs flags).sent =
      some (format_messages
        ((setContentAt st.chat_history i st.question).take (i + 1)) st.question) ∧
    (update_user_message st none evs flags).chat_history.take (i + 1) =
      (setContentAt st.chat_history i st.question).take (i + 1) := by
  rw [update_user_message_run st evs flags i hi hq]
  refine ⟨rfl, ?_⟩
  show (finalHist flags (runSession evs).out
      ((setContentAt st.chat_history i st.question).take (i + 1) ++
        [⟨"assistant".toList, none, none⟩])).take (i + 1) = _
  have hlen0 : ((setContentAt st.chat_history i st.question).take (i + 1)).length
      = i + 1 := by
    rw [List.length_take, setContentAt_length]
    omega
  obtain ⟨m2, hm2⟩ := consume_hist_concat flags (runSession evs).out 0
    ((setContentAt st.chat_history i st.question).take (i + 1))
    ⟨"assistant".toList, none, none⟩ [] []
  unfold finalHist
  by_cases he : (consumeLoop flags 0 (runSession evs).out
      ((setContentAt st.chat_history i st.question).take (i + 1) ++
        [⟨"assistant".toList, none, none⟩]) [] []).errored
  · simp only [he, if_true]
    rw [hm2, List.append_assoc]
    have ht := List.take_left
      ((setContentAt st.chat_history i st.question).take (i + 1))
      ([m2] ++ [⟨"assistant".toList, some ("Error: ".toList ++ typeErrText), none⟩])
    rw [hlen0] at ht
    exact ht
  · simp only [he, Bool.false_eq_true, if_false]
    rw [hm2]
    have ht := List.take_left
      ((setContentAt st.chat_history i st.question).take (i + 1)) [m2]
    rw [hlen0] at ht
    exact ht

/-- Witness for C9's amended claim at scenario D's conversation. -/
theorem claim9_truncation_amended_witness :
    ((⟨[⟨"user".toList, some ("a".toList), none⟩,
        ⟨"assistant".toList, some ("b".toList), none⟩,
        ⟨"user".toList, some ("c".toList), none⟩], "X".toList, false,
        some 1⟩ : AppState).editing_user_message_index = some 1) ∧
    (pyStrip (("X".toList : List Char))).isEmpty = false ∧
    (1 < ([⟨"user".toList, some ("a".toList), none⟩,
        ⟨"assistant".toList, some ("b".toList), none⟩,
        ⟨"user".toList, some ("c".toList), none⟩] : List Message).length) ∧
    ((update_user_message ⟨[⟨"user".toList, some ("a".toList), none⟩,
          ⟨"assistant".toList, some ("b".toList), none⟩,
          ⟨"user".toList, some ("c".toList), none⟩], "X".toList, false,
          some 1⟩ none [] (fun _ => true)).sent =
        some (format_messages
          ((setContentAt [⟨"user".toList, some ("a".toList), none⟩,
              ⟨"assistant".toList, some ("b".toList), none⟩,
              ⟨"user".toList, some ("c".toList), none⟩] 1 ("X".toList)).take 2)
          ("X".toList)) ∧
      (update_user_message ⟨[⟨"user".toList, some ("a".toList), none⟩,
          ⟨"assistant".toList, some ("b".toList), none⟩,
          ⟨"user".toList, some ("c".toList), none⟩], "X".toList, false,
          some 1⟩ none [] (fun _ => true)).chat_history.take 2 =
        (setContentAt [⟨"user".toList, some ("a".toList), none⟩,
            ⟨"assistant".toList, some ("b".toList), none⟩,
            ⟨"user".toList, some ("c".toList), none⟩] 1 ("X".toList)).take 2) :=
  ⟨rfl, by decide, by decide,
    claim9_truncation_amended _ [] (fun _ => true) 1 rfl (by decide) (by decide)⟩

/-- C10 (confirmed): for every well-formed SSE payload whose first choice's
delta has `content` and `reasoning` each either absent or equal to the
empty string — and regardless of any `finish_reason` — the session yields
no chunk for that frame: at the session's output an empty-string fragment
is indistinguishable from an absent field. -/
theorem claim10_empty_fragment_silent (s : List Char) (j ch c0 : Json)
    (fs : List (List Char × Json))
    (hload : jsonLoads s = some j)
    (hch : jGet j ("choices".toList) = some ch)
    (hc0 : jIdx ch 0 = some c0)
    (hd : jGet c0 ("delta".toList) = some (Json.obj fs))
    (hcont : jLookup ("content".toList) fs = none ∨
      jLookup ("content".toList) fs = some (Json.str []))
    (hrea : jLookup ("reasoning".toList) fs = none ∨
      jLookup ("reasoning".toList) fs = some (Json.str [])) :
    parseFrame s = [] := by
  unfold parseFrame
  rw [hload]
  show extractDelta j = []
  unfold extractDelta
  simp only [hch, hc0, hd]
  have hcontE : jLookup ['c', 'o', 'n', 't', 'e', 'n', 't'] fs = none ∨
      jLookup ['c', 'o', 'n', 't', 'e', 'n', 't'] fs = some (Json.str []) := hcont
  have hreaE : jLookup ['r', 'e', 'a', 's', 'o', 'n', 'i', 'n', 'g'] fs = none ∨
      jLookup ['r', 'e', 'a', 's', 'o', 'n', 'i', 'n', 'g'] fs =
        some (Json.str []) := hrea
  rcases hcontE with hc1 | hc1 <;> rcases hreaE with hr1 | hr1 <;>
    simp [pyGet, hc1, hr1, pyTruthyO, pyTruthy]

/-- Witness for C10 at a payload carrying an empty content string and a
finish reason. -/
theorem claim10_empty_fragment_silent_witness :
    jsonLoads emptyContentPayload =
      some (Json.obj [("choices".toList,
        Json.arr [Json.obj [("delta".toList,
            Json.obj [("content".toList, Json.str [])]),
          ("finish_reason".toList, Json.str ("stop".toList))]])]) ∧
    parseFrame emptyContentPayload = [] :=
  ⟨rfl,
    claim10_empty_fragment_silent emptyContentPayload
      (Json.obj [("choices".toList,
        Json.arr [Json.obj [("delta".toList,
            Json.obj [("content".toList, Json.str [])]),
          ("finish_reason".toList, Json.str ("stop".toList))]])])
      (Json.arr [Json.obj [("delta".toList,
          Json.obj [("content".toList, Json.str [])]),
        ("finish_reason".toList, Json.str ("stop".toList))]])
      (Json.obj [("delta".toList, Json.obj [("content".toList, Json.str [])]),
        ("finish_reason".toList, Json.str ("stop".toList))])
      [("content".toList, Json.str [])]
      rfl rfl rfl rfl (Or.inr rfl) (Or.inl rfl)⟩
